import Mathlib

/-!
Verification development for the patent-vis repository: a shallow embedding of
the text-autofit engine (`mpl_extra/autofit.py`) and of the squarified treemap
layout code (`mpl_extra/treemap.py`, delegating to the `squarify` package),
with theorems settling the behavioural claims about them.

Python floats are modelled by `ℚ` (division is total in `ℚ`; theorems carry
nonzero-denominator hypotheses where the claims presuppose them), Python
strings by `List Char`, and raising an exception by `Except PyErr`.
Loops of the source are embedded as structural recursions on an explicit
fuel argument initialised to a bound that the loop's own progress argument
makes sufficient, so that every definition evaluates by kernel reduction.
-/

namespace PatentVis

/-- A Python exception, carrying the exact message of the `raise` site. -/
inductive PyErr where
  | valueError (msg : String) : PyErr
deriving DecidableEq, Repr

deriving instance DecidableEq for Except

/-- Python `max(xs, key=k)` on a list: the fold keeps the current element unless
the candidate's key is strictly greater, hence the first maximum is returned;
an empty sequence raises `ValueError`. -/
def pyMaxByKey {α : Type} (k : α → ℚ) : List α → Except PyErr α
  | [] => .error (.valueError "max() arg is an empty sequence")
  | x :: xs => .ok (xs.foldl (fun acc y => if k acc < k y then y else acc) x)

/-- Python `min(xs, key=k)` on a list: keeps the current element unless the
candidate's key is strictly smaller, hence the first minimum is returned. -/
def pyMinByKey {α : Type} (k : α → ℚ) : List α → Except PyErr α
  | [] => .error (.valueError "min() arg is an empty sequence")
  | x :: xs => .ok (xs.foldl (fun acc y => if k y < k acc then y else acc) x)

/-- Python `min` over a list of numbers. -/
def pyMinQ (xs : List ℚ) : Except PyErr ℚ := pyMinByKey id xs

/-- Python `max` over a list of numbers (used for `max(map(len, words))`). -/
def pyMaxNat : List Nat → Except PyErr Nat
  | [] => .error (.valueError "max() arg is an empty sequence")
  | x :: xs => .ok (xs.foldl (fun acc y => if acc < y then y else acc) x)

/-- Python `%` on rationals: result of `x % y` is `x - y * floor (x / y)`,
the sign following the divisor, as for Python floats. -/
def pyMod (x y : ℚ) : ℚ := x - y * ⌊x / y⌋

/- ## `split_words` (autofit.py lines 239-255)

`re.findall(r"[一-﫿]|[0-9]+|[a-zA-Z]+\'*[a-z]*", txt)`: at each
position the regex engine tries a single CJK-range character first, then a
maximal digit run, then a maximal ASCII-letter run followed by a maximal run
of apostrophes followed by a maximal lowercase run; on failure it advances one
character.  The three branches are star/plus closures of character classes, so
the greedy match never backtracks. -/

/-- Character class `[一-﫿]` of the `split_words` regex. -/
def isCJKChar (c : Char) : Bool := 0x4e00 ≤ c.toNat && c.toNat ≤ 0xfaff

/-- Character class `[0-9]`. -/
def isDigitChar (c : Char) : Bool := '0' ≤ c && c ≤ '9'

/-- Character class `[a-zA-Z]`. -/
def isAsciiLetter (c : Char) : Bool := ('a' ≤ c && c ≤ 'z') || ('A' ≤ c && c ≤ 'Z')

/-- Character class `[a-z]`. -/
def isLowerLetter (c : Char) : Bool := 'a' ≤ c && c ≤ 'z'

/-- One `findall` scan of the `split_words` regex, with fuel bounding the
number of positions visited (each step consumes at least one character). -/
def splitWordsGo : Nat → List Char → List (List Char)
  | 0, _ => []
  | fuel + 1, s =>
    match s with
    | [] => []
    | c :: rest =>
    if isCJKChar c then
      [c] :: splitWordsGo fuel rest
    else if isDigitChar c then
      let run := (c :: rest).takeWhile isDigitChar
      run :: splitWordsGo fuel ((c :: rest).dropWhile isDigitChar)
    else if isAsciiLetter c then
      let letters := (c :: rest).takeWhile isAsciiLetter
      let r1 := (c :: rest).dropWhile isAsciiLetter
      let apos := r1.takeWhile (fun d => d = '\'')
      let r2 := r1.dropWhile (fun d => d = '\'')
      let lowers := r2.takeWhile isLowerLetter
      let r3 := r2.dropWhile isLowerLetter
      (letters ++ apos ++ lowers) :: splitWordsGo fuel r3
    else
      splitWordsGo fuel rest

/-- `split_words(txt)`: the regex word list of a text. -/
def split_words (txt : List Char) : List (List Char) :=
  splitWordsGo (txt.length + 1) txt

/- ## Python `textwrap.wrap` (stdlib, called at autofit.py line 209)

Model of `textwrap.wrap(txt, width)` with the default `TextWrapper` options
(`expand_tabs`, `replace_whitespace`, `drop_whitespace`, `break_long_words`
all true, no indents, `max_lines=None`).  The chunk splitter is modelled as
runs of whitespace versus runs of non-whitespace over the ASCII whitespace
class; the hyphen and em-dash splitting rules of `wordsep_re`, Unicode-only
whitespace, and the `width <= 0` ValueError (unreachable here: the wrap
width is at least the longest word's length, hence at least 1 whenever the
word list is non-empty) are not modelled. -/

/-- The whitespace characters of `string.whitespace` translated by
`_munge_whitespace` (tab, newline, vertical tab, form feed, carriage
return, space). -/
def isPyWhitespace (c : Char) : Bool :=
  c = ' ' || c = '\t' || c = '\n' || c = Char.ofNat 11 || c = Char.ofNat 12 ||
    c = Char.ofNat 13

/-- `str.expandtabs(8)`: replaces each tab by spaces up to the next multiple
of 8, tracking the column, which resets after newline and carriage return. -/
def pyExpandtabs (s : List Char) : List Char :=
  (s.foldl
    (fun (acc : List Char × Nat) c =>
      if c = '\t' then
        (acc.1 ++ List.replicate (8 - acc.2 % 8) ' ', acc.2 + (8 - acc.2 % 8))
      else if c = '\n' ∨ c = Char.ofNat 13 then (acc.1 ++ [c], 0)
      else (acc.1 ++ [c], acc.2 + 1))
    ([], 0)).1

/-- `TextWrapper._munge_whitespace`: expand tabs, then turn every whitespace
character into a plain space. -/
def mungeWhitespace (s : List Char) : List Char :=
  (pyExpandtabs s).map (fun c => if isPyWhitespace c then ' ' else c)

/-- Split a munged text into maximal runs of spaces and of non-spaces
(the chunks that `TextWrapper._split` produces on hyphen-free text). -/
def splitChunksGo : Nat → List Char → List (List Char)
  | 0, _ => []
  | fuel + 1, s =>
    match s with
    | [] => []
    | c :: rest =>
    if c = ' ' then
      ((c :: rest).takeWhile (fun d => d = ' ')) ::
        splitChunksGo fuel ((c :: rest).dropWhile (fun d => d = ' '))
    else
      ((c :: rest).takeWhile (fun d => ¬ d = ' ')) ::
        splitChunksGo fuel ((c :: rest).dropWhile (fun d => ¬ d = ' '))

/-- The chunk list of a text. -/
def splitChunks (s : List Char) : List (List Char) :=
  splitChunksGo (s.length + 1) s

/-- A chunk `c` with `c.strip() == ''` (all spaces after munging; the empty
chunk counts as whitespace, as in Python). -/
def isWsChunk (c : List Char) : Bool := c.all (fun d => d = ' ')

/-- The inner greedy loop of `_wrap_chunks`: take chunks while the running
length stays within the width; return the taken line and the rest. -/
def greedyTake (width : Nat) : Nat → List (List Char) → List (List Char) × List (List Char)
  | _, [] => ([], [])
  | curLen, c :: rest =>
    if curLen + c.length ≤ width then
      let p := greedyTake width (curLen + c.length) rest
      (c :: p.1, p.2)
    else ([], c :: rest)

/-- The `drop_whitespace` deletion of a trailing whitespace chunk from the
current line (`if cur_line and cur_line[-1].strip() == '': del cur_line[-1]`). -/
def dropTrailingWs (l : List (List Char)) : List (List Char) :=
  match l.getLast? with
  | some c => if isWsChunk c then l.dropLast else l
  | none => l

/-- The chunk-consuming part of one `_wrap_chunks` iteration: the greedy
take, followed by `_handle_long_word` when the next chunk exceeds the
width; returns the current line's chunks and the remaining chunks. -/
def wrapStep (width : Nat) (cs1 : List (List Char)) :
    List (List Char) × List (List Char) :=
  let p := greedyTake width 0 cs1
  match p.2 with
  | c :: rtl =>
    if width < c.length then
      let curLen := (p.1.map List.length).sum
      let spaceLeft := if width < 1 then 1 else width - curLen
      (p.1 ++ [c.take spaceLeft], c.drop spaceLeft :: rtl)
    else (p.1, p.2)
  | [] => (p.1, p.2)

/-- One outer iteration of `_wrap_chunks` followed by the remaining ones,
with fuel bounding the iteration count (every iteration consumes at least
one chunk or at least one character of the long chunk). -/
def wrapGo (width : Nat) : Nat → Bool → List (List Char) → List (List Char)
  | 0, _, _ => []
  | fuel + 1, isFirstLine, chunks =>
    match chunks with
    | [] => []
    | c :: rest =>
      let cs1 := if !isFirstLine && isWsChunk c then rest else c :: rest
      let q := wrapStep width cs1
      let cur := dropTrailingWs q.1
      if cur.isEmpty then wrapGo width fuel isFirstLine q.2
      else cur.flatten :: wrapGo width fuel false q.2

/-- `textwrap.wrap(txt, width)`. -/
def textwrap_wrap (txt : List Char) (width : Nat) : List (List Char) :=
  let chunks := splitChunks (mungeWhitespace txt)
  wrapGo width ((chunks.map List.length).sum + chunks.length + 1) true chunks

/- ## The autofit engine (autofit.py)

The host renderer is the out-of-scope collaborator: it is modelled as an
oracle giving the pixel bounding box that `Text.get_window_extent` reports
for the text object's content at a font size, and the subpixel width that
`FT2Font.get_width_height` reports for a single line at a font size and dpi
(the source divides the latter by 64). -/

/-- The renderer measurement oracle. -/
structure Renderer where
  windowExtent : List Char → ℚ → ℚ × ℚ
  rawWidth : List Char → ℚ → ℚ → ℚ

/-- The state of a matplotlib `Text` object that `text_with_autofit` reads
and mutates: content, current font size, rotation in degrees, line spacing,
and the font-properties size in points used as the reference size for the
width measurements. -/
structure TextObj where
  text : List Char
  fontsize : ℚ
  rotation : ℚ
  linespacing : ℚ
  refSize : ℚ
deriving DecidableEq, Repr

/-- A matplotlib affine 2D transform with matrix rows `(a c e)` and
`(b d f)`: it maps `(x, y)` to `(a x + c y + e, b x + d y + f)`. -/
structure Affine2 where
  a : ℚ
  b : ℚ
  c : ℚ
  d : ℚ
  e : ℚ
  f : ℚ
deriving DecidableEq, Repr

/-- Apply an affine transform to a point. -/
def Affine2.transform (t : Affine2) (p : ℚ × ℚ) : ℚ × ℚ :=
  (t.a * p.1 + t.c * p.2 + t.e, t.b * p.1 + t.d * p.2 + t.f)

/-- Determinant of the linear part. -/
def Affine2.det (t : Affine2) : ℚ := t.a * t.d - t.c * t.b

/-- `Transform.inverted()`: the inverse affine transform (meaningful when
the determinant is nonzero). -/
def Affine2.inverted (t : Affine2) : Affine2 :=
  { a := t.d / t.det
    b := -t.b / t.det
    c := -t.c / t.det
    d := t.a / t.det
    e := (t.c * t.f - t.d * t.e) / t.det
    f := (t.b * t.e - t.a * t.f) / t.det }

/-- `dist2pixels(transform, width, height)` (autofit.py lines 315-344), at
the two-argument call used by `text_with_autofit`: transform the origin and
the offset point and subtract. -/
def dist2pixels (t : Affine2) (dx dy : ℚ) : ℚ × ℚ :=
  let start_point := t.transform (0, 0)
  let end_point := t.transform (dx, dy)
  (end_point.1 - start_point.1, end_point.2 - start_point.2)

/-- `pixels2dist(transform, *dists)` (autofit.py lines 347-365): the same
mapping through the inverted transform. -/
def pixels2dist (t : Affine2) (dx dy : ℚ) : ℚ × ℚ :=
  dist2pixels t.inverted dx dy

/-- `pixels2points(dpi, pixels)` (autofit.py lines 368-384). -/
def pixels2points (dpi pixels : ℚ) : ℚ :=
  pixels / dpi / (1 / 72)

/-- `calc_fontsize_from_width(lines, width, dpi, fontprops)` (autofit.py
lines 258-290): for each line scale the reference size by the ratio of the
box width to the measured line width (subpixels divided by 64), and take
the minimum. -/
def calc_fontsize_from_width (r : Renderer) (lines : List (List Char))
    (width dpi refSize : ℚ) : Except PyErr ℚ :=
  pyMinQ (lines.map (fun line => refSize * width / (r.rawWidth line refSize dpi / 64)))

/-- `calc_fontsize_from_height(height, n, linespacing, dpi)` (autofit.py
lines 293-312). -/
def calc_fontsize_from_height (height : ℚ) (n : Nat) (linespacing dpi : ℚ) : ℚ :=
  pixels2points dpi (height / (n * linespacing - linespacing + 1))

/-- `get_line_gap_from_boxedge(lines, fontsize, width, dpi, fontprops)`
(autofit.py lines 225-236): the smallest absolute difference between a
line's measured width at `fontsize` and the box width. -/
def get_line_gap_from_boxedge (r : Renderer) (lines : List (List Char))
    (fontsize width dpi : ℚ) : Except PyErr ℚ :=
  pyMinQ (lines.map (fun line => |r.rawWidth line fontsize dpi / 64 - width|))

/-- `get_wrapped_fontsize(txt, height, width, n, linespacing, dpi, fontprops)`
(autofit.py lines 179-222). -/
def get_wrapped_fontsize (r : Renderer) (txt : List Char) (height width : ℚ)
    (n : Nat) (linespacing dpi refSize : ℚ) :
    Except PyErr (ℚ × List (List Char) × ℚ) :=
  match pyMaxNat ((split_words txt).map List.length) with
  | .error err => .error err
  | .ok min_length =>
    let wrap_length := max min_length (txt.length / n)
    let wrap_txt := textwrap_wrap txt wrap_length
    match calc_fontsize_from_width r wrap_txt width dpi refSize with
    | .error err => .error err
    | .ok w_fontsize =>
      let h_fontsize := calc_fontsize_from_height height wrap_txt.length linespacing dpi
      match get_line_gap_from_boxedge r wrap_txt (min h_fontsize w_fontsize) width dpi with
      | .error err => .error err
      | .ok delta_w => .ok (min h_fontsize w_fontsize, wrap_txt, delta_w)

/-- A `for` loop appending `f a` for each `a`, propagating the first raised
exception (Python's loop-and-append pattern). -/
def mapMList {α β : Type} (f : α → Except PyErr β) : List α → Except PyErr (List β)
  | [] => .ok []
  | a :: as =>
    match f a with
    | .error err => .error err
    | .ok b =>
      match mapMList f as with
      | .error err => .error err
      | .ok bs => .ok (b :: bs)

/-- The candidate loop of `text_with_autofit` (autofit.py lines 71-78): one
wrapped candidate per line count `n` in `range(2, len(words) + 1)`. -/
def wrap_candidates (r : Renderer) (dpi : ℚ) (t : TextObj) (wpx hpx : ℚ) :
    Except PyErr (List (ℚ × List (List Char) × ℚ)) :=
  mapMList
    (fun n => get_wrapped_fontsize r t.text hpx wpx n t.linespacing dpi t.refSize)
    (List.range' 2 ((split_words t.text).length - 1))

/-- The candidate selection of `text_with_autofit` (autofit.py lines 80-85):
`max` by font size when growing, otherwise `min` by edge gap. -/
def select_candidate (grow : Bool) (fontsizes : List (ℚ × List (List Char) × ℚ)) :
    Except PyErr (ℚ × List (List Char) × ℚ) :=
  if grow then pyMaxByKey (fun x => x.1) fontsizes
  else pyMinByKey (fun x => x.2.2) fontsizes

/-- `'\n'.join(wrap_txt)`. -/
def joinLines (lines : List (List Char)) : List Char :=
  List.intercalate ['\n'] lines

/-- `text_with_autofit(txtobj, width, height, wrap=..., grow=...)`
(autofit.py lines 9-109), without the `show_rect` debug branch, which only
adds an outline patch and does not affect the fitted object. -/
def text_with_autofit (txtobj : TextObj) (width height : ℚ) (wrap grow : Bool)
    (transform : Affine2) (render : Renderer) (dpi : ℚ) : Except PyErr TextObj :=
  if width < 0 ∨ height < 0 then
    .error (.valueError "`width` and `height` should be a number >= 0.")
  else if wrap = true ∧ pyMod txtobj.rotation 90 ≠ 0 then
    .error (.valueError "`wrap` option only supports the horizontal or vertical text object.")
  else
    let wh := dist2pixels transform width height
    let bbox := render.windowExtent txtobj.text txtobj.fontsize
    let adjusted_fontsize :=
      min (txtobj.fontsize * wh.1 / bbox.1) (txtobj.fontsize * wh.2 / bbox.2)
    if wrap then
      match wrap_candidates render dpi txtobj wh.1 wh.2 with
      | .error err => .error err
      | .ok fontsizes =>
        match select_candidate grow fontsizes with
        | .error err => .error err
        | .ok best =>
          if adjusted_fontsize < best.1 then
            .ok { txtobj with fontsize := best.1, text := joinLines best.2.1 }
          else
            .ok { txtobj with fontsize := adjusted_fontsize }
    else .ok { txtobj with fontsize := adjusted_fontsize }

/-- A concrete monospace renderer for closed instances: the window extent of
a text at size `s` is `s` times its character count by `s`, and the raw
subpixel width of a line is `64 s` times its character count. -/
def monoRenderer : Renderer where
  windowExtent := fun txt fs => (fs * txt.length, fs)
  rawWidth := fun line fs _dpi => 64 * fs * line.length

/-- The identity transform. -/
def idTransform : Affine2 := ⟨1, 0, 0, 1, 0, 0⟩

/- ## The `squarify` package (imported by treemap.py)

The layout engine the repository delegates to: `normalize_sizes`,
`squarify` and `padded_squarify` of the `squarify` PyPI package, embedded
over `ℚ`. -/

/-- A rectangle dict `x/y/dx/dy` of the squarify package. -/
structure SqRect where
  x : ℚ
  y : ℚ
  dx : ℚ
  dy : ℚ
deriving DecidableEq, Repr

/-- `squarify.normalize_sizes(sizes, dx, dy)`: scale the sizes so that they
sum to the rectangle area. -/
def normalize_sizes (sizes : List ℚ) (dx dy : ℚ) : List ℚ :=
  let total_size := sizes.sum
  let total_area := dx * dy
  sizes.map (fun size => size * total_area / total_size)

/-- `squarify.layoutrow`: stack the sizes along the height `dy`, each with
the common width `covered_area / dy`. -/
def layoutrow (sizes : List ℚ) (x y dy : ℚ) : List SqRect :=
  let covered_area := sizes.sum
  let width := covered_area / dy
  (sizes.foldl
    (fun (acc : List SqRect × ℚ) size =>
      (acc.1 ++ [⟨x, acc.2, width, size / width⟩], acc.2 + size / width))
    ([], y)).1

/-- `squarify.layoutcol`: stack the sizes along the width `dx`, each with
the common height `covered_area / dx`. -/
def layoutcol (sizes : List ℚ) (x y dx : ℚ) : List SqRect :=
  let covered_area := sizes.sum
  let height := covered_area / dx
  (sizes.foldl
    (fun (acc : List SqRect × ℚ) size =>
      (acc.1 ++ [⟨acc.2, y, size / height, height⟩], acc.2 + size / height))
    ([], x)).1

/-- `squarify.layout`: a row when `dx >= dy`, otherwise a column. -/
def layout (sizes : List ℚ) (x y dx dy : ℚ) : List SqRect :=
  if dy ≤ dx then layoutrow sizes x y dy else layoutcol sizes x y dx

/-- `squarify.leftover`: the rectangle remaining after laying out the row or
column of the given sizes, as `(x, y, dx, dy)`. -/
def leftover (sizes : List ℚ) (x y dx dy : ℚ) : ℚ × ℚ × ℚ × ℚ :=
  if dy ≤ dx then
    let width := sizes.sum / dy
    (x + width, y, dx - width, dy)
  else
    let height := sizes.sum / dx
    (x, y + height, dx, dy - height)

/-- `squarify.worst_ratio`: the worst aspect ratio in the layout of the
given sizes (the source's `max` over a non-empty list; the empty case is
never reached because the split index is at least 1). -/
def worst_ratio (sizes : List ℚ) (x y dx dy : ℚ) : ℚ :=
  match (layout sizes x y dx dy).map (fun r => max (r.dx / r.dy) (r.dy / r.dx)) with
  | [] => 0
  | v :: vs => vs.foldl max v

/-- The split-searching `while` loop of `squarify.squarify`: advance `i`
while adding the next size would not improve the worst aspect ratio. -/
def findSplitGo (sizes : List ℚ) (x y dx dy : ℚ) : Nat → Nat → Nat
  | 0, i => i
  | fuel + 1, i =>
    if i < sizes.length then
      if worst_ratio (sizes.take (i + 1)) x y dx dy ≤ worst_ratio (sizes.take i) x y dx dy
      then findSplitGo sizes x y dx dy fuel (i + 1)
      else i
    else i

/-- `squarify.squarify(sizes, x, y, dx, dy)`: lay out the first `i` sizes as
a row or column and recurse on the remainder in the leftover rectangle; the
fuel bounds the recursion depth (each call consumes at least one size). -/
def squarifyGo : Nat → List ℚ → ℚ → ℚ → ℚ → ℚ → List SqRect
  | 0, _, _, _, _, _ => []
  | fuel + 1, sizes, x, y, dx, dy =>
    if sizes.length = 0 then []
    else if sizes.length = 1 then layout sizes x y dx dy
    else
      let i := findSplitGo sizes x y dx dy (sizes.length + 1) 1
      let current := sizes.take i
      let remaining := sizes.drop i
      let lo := leftover current x y dx dy
      layout current x y dx dy ++ squarifyGo fuel remaining lo.1 lo.2.1 lo.2.2.1 lo.2.2.2

/-- `squarify.squarify` at its entry point. -/
def squarify (sizes : List ℚ) (x y dx dy : ℚ) : List SqRect :=
  squarifyGo (sizes.length + 1) sizes x y dx dy

/-- `squarify.pad_rectangle`: inset a rectangle by one unit on each side
whose extent exceeds 2. -/
def pad_rectangle (r : SqRect) : SqRect :=
  let r1 := if 2 < r.dx then { r with x := r.x + 1, dx := r.dx - 2 } else r
  if 2 < r1.dy then { r1 with y := r1.y + 1, dy := r1.dy - 2 } else r1

/-- `squarify.padded_squarify`. -/
def padded_squarify (sizes : List ℚ) (x y dx dy : ℚ) : List SqRect :=
  (squarify sizes x y dx dy).map pad_rectangle

/- ## treemap.py: `squarify_data` and the subgroup padding -/

/-- A row of the plot-data frame as the layout code sees it: the (innermost)
group key and the aggregated `_area_` value.  Missing (NaN) key values were
replaced by the empty string by `get_plot_data`'s `fillna('')`. -/
structure Item where
  key : String
  area : ℚ
deriving DecidableEq, Repr

/-- Stable insertion into a descending-by-area list. -/
def insertDesc (it : Item) : List Item → List Item
  | [] => [it]
  | x :: xs => if x.area < it.area then it :: x :: xs else x :: insertDesc it xs

/-- `df.sort_values(by='_area_', ascending=False)`, modelled as a stable
descending sort (the source's default sort leaves tie order unspecified). -/
def sort_desc (items : List Item) : List Item :=
  items.foldr insertDesc []

/-- `squarify_data(df, x, y, dx, dy, split)` (treemap.py lines 316-335):
sort the areas descending, normalize them to the rectangle area, run the
squarify package, and join the rectangles back onto the rows in their
original order (the join is by index; the default rectangle of the lookup
is never used when keys are distinct). -/
def squarify_data (items : List Item) (x y dx dy : ℚ) (split : Bool) :
    List (Item × SqRect) :=
  let sorted_items := sort_desc items
  let sizes := normalize_sizes (sorted_items.map Item.area) dx dy
  let rects := if split then padded_squarify sizes x y dx dy else squarify sizes x y dx dy
  let assigned := sorted_items.zip rects
  items.map (fun it =>
    (it, (assigned.find? (fun p => p.1.key = it.key)).elim ⟨0, 0, 0, 0⟩ (fun p => p.2)))

/-- The shapes `pad` may take in `get_surrounding_pad` (treemap.py lines
302-313): a number, a pair, or a quadruple; tuples of any other length hit
the source's `raise ValueError` and are not representable here. -/
inductive PadSpec where
  | scalar (p : ℚ)
  | two (lt : ℚ × ℚ)
  | four (lrtb : ℚ × ℚ × ℚ × ℚ)
deriving DecidableEq, Repr

/-- `get_surrounding_pad(pad)`: resolve a pad spec to
`(pad_left, pad_right, pad_top, pad_bottom)`; a pair gives `(left, top)`
reused as `(right, bottom)`. -/
def get_surrounding_pad : PadSpec → ℚ × ℚ × ℚ × ℚ
  | .scalar p => (p, p, p, p)
  | .two (l, t) => (l, l, t, t)
  | .four (l, r, t, b) => (l, r, t, b)

/-- The body of the per-parent loop of `squarify_subgroups` (treemap.py
lines 283-297): lay out one parent's child group inside the parent
rectangle, inset by the resolved paddings unless the first child's key is
falsy (`not child_group.index[0]`, true for the empty-string key that a
missing/NaN level value was filled with). -/
def squarify_child_group (children : List Item) (parentRect : SqRect)
    (pad : PadSpec) : List (Item × SqRect) :=
  let p4 := get_surrounding_pad pad
  let pad_left := p4.1
  let pad_right := p4.2.1
  let pad_top := p4.2.2.1
  let pad_bottom := p4.2.2.2
  let skip : Bool := children.head?.elim false (fun it => it.key = "")
  squarify_data children
    (parentRect.x + (if skip then 0 else pad_left))
    (parentRect.y + (if skip then 0 else pad_bottom))
    (parentRect.dx - (if skip then 0 else pad_left + pad_right))
    (parentRect.dy - (if skip then 0 else pad_bottom + pad_top))
    false

/-- A rectangle inset by subtracting the left/right/top/bottom paddings from
the four sides, stated from the spec's wording of the padded recursion for
comparison with the layout code. -/
def spec_inset_rect (r : SqRect) (pl pr pt pb : ℚ) : SqRect :=
  ⟨r.x + pl, r.y + pb, r.dx - (pl + pr), r.dy - (pb + pt)⟩

/- ## Font-size clamping (AutoFitText) -/

/-- Modelled from the spec: the final font-size clamping of the
`AutoFitText` artist.  The class is invoked by `treemap.draw_subgroup` with
the `min_fontsize` and `max_fontsize` options, but its definition is not
among the sources.  Per the spec: the final size is clamped into
`[minSize, maxSize]` when the bounds are provided, and an unconstrained fit
below `minSize` is raised to `minSize` and reported as not fitting. -/
def clamp_fontsize (minSize maxSize : Option ℚ) (fitted : ℚ) : ℚ × Bool :=
  let capped := match maxSize with
    | some m => min fitted m
    | none => fitted
  match minSize with
  | some m => if capped < m then (m, false) else (capped, true)
  | none => (capped, true)

/- ## Claim-side formula for the wrap candidate (C2) -/

/-- The wrap candidate's font size as claim C2 words it: identical
measurements, but with the height bound computed from the candidate line
count `n` itself.  Stated from the spec for comparison with
`get_wrapped_fontsize`, which feeds the produced line count into the height
bound instead. -/
def claimed_candidate_size (r : Renderer) (txt : List Char) (height width : ℚ)
    (n : Nat) (linespacing dpi refSize : ℚ) : Except PyErr ℚ :=
  match pyMaxNat ((split_words txt).map List.length) with
  | .error err => .error err
  | .ok min_length =>
    let wrap_txt := textwrap_wrap txt (max min_length (txt.length / n))
    match calc_fontsize_from_width r wrap_txt width dpi refSize with
    | .error err => .error err
    | .ok wBound => .ok (min (calc_fontsize_from_height height n linespacing dpi) wBound)

/- ## Concrete fixtures for closed instances -/

/-- A renderer reporting the 300 by 20 pixel unwrapped bounding box of the
spec's concrete scenario, with monospace line measurements. -/
def c1Renderer : Renderer where
  windowExtent := fun _ _ => (300, 20)
  rawWidth := fun line fs _dpi => 64 * fs * line.length

/-- The text object of the spec's concrete scenario: content
"Hello, World!" at font size 10. -/
def c1Text : TextObj := ⟨"Hello, World!".toList, 10, 0, 1, 10⟩

/- ## Helper lemmas -/

lemma mapMList_ok_length {α β : Type} (f : α → Except PyErr β) :
    ∀ (l : List α) (bs : List β), mapMList f l = .ok bs → bs.length = l.length := by
  intro l
  induction l with
  | nil =>
    intro bs h
    simp only [mapMList, Except.ok.injEq] at h
    simp [← h]
  | cons a as ih =>
    intro bs h
    simp only [mapMList] at h
    cases hfa : f a with
    | error err => rw [hfa] at h; exact absurd h (by simp)
    | ok b =>
      rw [hfa] at h
      cases hrest : mapMList f as with
      | error err => rw [hrest] at h; exact absurd h (by simp)
      | ok bs2 =>
        rw [hrest] at h
        simp only [Except.ok.injEq] at h
        simp [← h, ih bs2 hrest]

lemma mapMList_error_mem {α β : Type} (f : α → Except PyErr β) :
    ∀ (l : List α) (err : PyErr), mapMList f l = .error err →
      ∃ a ∈ l, f a = .error err := by
  intro l
  induction l with
  | nil => intro err h; exact absurd h (by simp [mapMList])
  | cons a as ih =>
    intro err h
    simp only [mapMList] at h
    cases hfa : f a with
    | error e2 =>
      rw [hfa] at h
      simp only [Except.error.injEq] at h
      exact ⟨a, by simp, by rw [hfa, h]⟩
    | ok b =>
      rw [hfa] at h
      cases hrest : mapMList f as with
      | error e2 =>
        rw [hrest] at h
        simp only [Except.error.injEq] at h
        obtain ⟨a2, ha2, hfa2⟩ := ih e2 hrest
        exact ⟨a2, by simp [ha2], by rw [hfa2, h]⟩
      | ok bs => rw [hrest] at h; exact absurd h (by simp)

/-- The running fold of Python `max(..., key=k)` keeps the first element whose
key is maximal: either nothing beat the seed, or the result sits after a
strictly smaller prefix and weakly dominates the whole list. -/
lemma foldl_keepMax_spec {α : Type} (k : α → ℚ) :
    ∀ (xs : List α) (acc r : α),
      xs.foldl (fun a y => if k a < k y then y else a) acc = r →
      (r = acc ∧ ∀ y ∈ xs, k y ≤ k acc) ∨
      (∃ l1 l2, xs = l1 ++ r :: l2 ∧ k acc < k r ∧ (∀ y ∈ xs, k y ≤ k r) ∧
        ∀ y ∈ l1, k y < k r) := by
  intro xs
  induction xs with
  | nil => intro acc r h; simp at h; exact Or.inl ⟨h.symm, by simp⟩
  | cons x t ih =>
    intro acc r h
    simp only [List.foldl_cons] at h
    by_cases hax : k acc < k x
    · rw [if_pos hax] at h
      rcases ih x r h with ⟨hr, hbnd⟩ | ⟨l1, l2, heq, hlt, hbnd, hpre⟩
      · subst hr
        exact Or.inr ⟨[], t, by simp, hax, by
          intro y hy
          rcases List.mem_cons.mp hy with rfl | hy2
          · exact le_refl _
          · exact hbnd y hy2, by simp⟩
      · refine Or.inr ⟨x :: l1, l2, by simp [heq], lt_trans hax hlt, ?_, ?_⟩
        · intro y hy
          rcases List.mem_cons.mp hy with rfl | hy2
          · exact le_of_lt hlt
          · exact hbnd y hy2
        · intro y hy
          rcases List.mem_cons.mp hy with rfl | hy2
          · exact hlt
          · exact hpre y hy2
    · rw [if_neg hax] at h
      push_neg at hax
      rcases ih acc r h with ⟨hr, hbnd⟩ | ⟨l1, l2, heq, hlt, hbnd, hpre⟩
      · refine Or.inl ⟨hr, ?_⟩
        intro y hy
        rcases List.mem_cons.mp hy with rfl | hy2
        · exact hax
        · exact hbnd y hy2
      · refine Or.inr ⟨x :: l1, l2, by simp [heq], hlt, ?_, ?_⟩
        · intro y hy
          rcases List.mem_cons.mp hy with rfl | hy2
          · exact le_trans hax (le_of_lt hlt)
          · exact hbnd y hy2
        · intro y hy
          rcases List.mem_cons.mp hy with rfl | hy2
          · exact lt_of_le_of_lt hax hlt
          · exact hpre y hy2

/-- The running fold of Python `min(..., key=k)` keeps the first element whose
key is minimal. -/
lemma foldl_keepMin_spec {α : Type} (k : α → ℚ) :
    ∀ (xs : List α) (acc r : α),
      xs.foldl (fun a y => if k y < k a then y else a) acc = r →
      (r = acc ∧ ∀ y ∈ xs, k acc ≤ k y) ∨
      (∃ l1 l2, xs = l1 ++ r :: l2 ∧ k r < k acc ∧ (∀ y ∈ xs, k r ≤ k y) ∧
        ∀ y ∈ l1, k r < k y) := by
  intro xs
  induction xs with
  | nil => intro acc r h; simp at h; exact Or.inl ⟨h.symm, by simp⟩
  | cons x t ih =>
    intro acc r h
    simp only [List.foldl_cons] at h
    by_cases hax : k x < k acc
    · rw [if_pos hax] at h
      rcases ih x r h with ⟨hr, hbnd⟩ | ⟨l1, l2, heq, hlt, hbnd, hpre⟩
      · subst hr
        exact Or.inr ⟨[], t, by simp, hax, by
          intro y hy
          rcases List.mem_cons.mp hy with rfl | hy2
          · exact le_refl _
          · exact hbnd y hy2, by simp⟩
      · refine Or.inr ⟨x :: l1, l2, by simp [heq], lt_trans hlt hax, ?_, ?_⟩
        · intro y hy
          rcases List.mem_cons.mp hy with rfl | hy2
          · exact le_of_lt hlt
          · exact hbnd y hy2
        · intro y hy
          rcases List.mem_cons.mp hy with rfl | hy2
          · exact hlt
          · exact hpre y hy2
    · rw [if_neg hax] at h
      push_neg at hax
      rcases ih acc r h with ⟨hr, hbnd⟩ | ⟨l1, l2, heq, hlt, hbnd, hpre⟩
      · refine Or.inl ⟨hr, ?_⟩
        intro y hy
        rcases List.mem_cons.mp hy with rfl | hy2
        · exact hax
        · exact hbnd y hy2
      · refine Or.inr ⟨x :: l1, l2, by simp [heq], hlt, ?_, ?_⟩
        · intro y hy
          rcases List.mem_cons.mp hy with rfl | hy2
          · exact le_trans (le_of_lt hlt) hax
          · exact hbnd y hy2
        · intro y hy
          rcases List.mem_cons.mp hy with rfl | hy2
          · exact lt_of_lt_of_le hlt hax
          · exact hpre y hy2

/-- Specification of Python `max(xs, key=k)`: the result is the first
element attaining the maximum key. -/
lemma pyMaxByKey_spec {α : Type} (k : α → ℚ) (xs : List α) (c : α)
    (h : pyMaxByKey k xs = .ok c) :
    ∃ l1 l2, xs = l1 ++ c :: l2 ∧ (∀ y ∈ xs, k y ≤ k c) ∧ ∀ y ∈ l1, k y < k c := by
  match xs with
  | [] => exact absurd h (by simp [pyMaxByKey])
  | x :: t =>
    simp only [pyMaxByKey, Except.ok.injEq] at h
    rcases foldl_keepMax_spec k t x c h with ⟨hr, hbnd⟩ | ⟨l1, l2, heq, hlt, hbnd, hpre⟩
    · subst hr
      refine ⟨[], t, by simp, ?_, by simp⟩
      intro y hy
      rcases List.mem_cons.mp hy with rfl | hy2
      · exact le_refl _
      · exact hbnd y hy2
    · refine ⟨x :: l1, l2, by simp [heq], ?_, ?_⟩
      · intro y hy
        rcases List.mem_cons.mp hy with rfl | hy2
        · exact le_of_lt hlt
        · exact hbnd y hy2
      · intro y hy
        rcases List.mem_cons.mp hy with rfl | hy2
        · exact hlt
        · exact hpre y hy2

/-- Specification of Python `min(xs, key=k)`: the result is the first
element attaining the minimum key. -/
lemma pyMinByKey_spec {α : Type} (k : α → ℚ) (xs : List α) (c : α)
    (h : pyMinByKey k xs = .ok c) :
    ∃ l1 l2, xs = l1 ++ c :: l2 ∧ (∀ y ∈ xs, k c ≤ k y) ∧ ∀ y ∈ l1, k c < k y := by
  match xs with
  | [] => exact absurd h (by simp [pyMinByKey])
  | x :: t =>
    simp only [pyMinByKey, Except.ok.injEq] at h
    rcases foldl_keepMin_spec k t x c h with ⟨hr, hbnd⟩ | ⟨l1, l2, heq, hlt, hbnd, hpre⟩
    · subst hr
      refine ⟨[], t, by simp, ?_, by simp⟩
      intro y hy
      rcases List.mem_cons.mp hy with rfl | hy2
      · exact le_refl _
      · exact hbnd y hy2
    · refine ⟨x :: l1, l2, by simp [heq], ?_, ?_⟩
      · intro y hy
        rcases List.mem_cons.mp hy with rfl | hy2
        · exact le_of_lt hlt
        · exact hbnd y hy2
      · intro y hy
        rcases List.mem_cons.mp hy with rfl | hy2
        · exact hlt
        · exact hpre y hy2

/-- Python `min` of a non-empty number list succeeds, and its value is a
member bounding the list from below. -/
lemma pyMinQ_spec (xs : List ℚ) (m : ℚ) (h : pyMinQ xs = .ok m) :
    m ∈ xs ∧ ∀ x ∈ xs, m ≤ x := by
  obtain ⟨l1, l2, heq, hbnd, _⟩ := pyMinByKey_spec id xs m h
  exact ⟨by simp [heq], hbnd⟩

lemma pyMinQ_isOk (xs : List ℚ) (h : xs ≠ []) : ∃ m, pyMinQ xs = .ok m := by
  match xs with
  | [] => exact absurd rfl h
  | x :: t => exact ⟨_, rfl⟩

lemma pyMinByKey_error {α : Type} (k : α → ℚ) (xs : List α) (err : PyErr)
    (h : pyMinByKey k xs = .error err) :
    xs = [] ∧ err = .valueError "min() arg is an empty sequence" := by
  match xs with
  | [] =>
    simp only [pyMinByKey, Except.error.injEq] at h
    exact ⟨rfl, h.symm⟩
  | x :: t => exact absurd h (by simp [pyMinByKey])

lemma pyMaxByKey_error {α : Type} (k : α → ℚ) (xs : List α) (err : PyErr)
    (h : pyMaxByKey k xs = .error err) :
    xs = [] ∧ err = .valueError "max() arg is an empty sequence" := by
  match xs with
  | [] =>
    simp only [pyMaxByKey, Except.error.injEq] at h
    exact ⟨rfl, h.symm⟩
  | x :: t => exact absurd h (by simp [pyMaxByKey])

lemma pyMaxNat_error (xs : List Nat) (err : PyErr)
    (h : pyMaxNat xs = .error err) :
    xs = [] ∧ err = .valueError "max() arg is an empty sequence" := by
  match xs with
  | [] =>
    simp only [pyMaxNat, Except.error.injEq] at h
    exact ⟨rfl, h.symm⟩
  | x :: t => exact absurd h (by simp [pyMaxNat])

lemma pyMaxNat_isOk (xs : List Nat) (h : xs ≠ []) : ∃ m, pyMaxNat xs = .ok m := by
  match xs with
  | [] => exact absurd rfl h
  | x :: t => exact ⟨_, rfl⟩

/-- Python `rotation % 90` vanishes exactly on the integer multiples of 90. -/
lemma pyMod90_eq_zero_iff (x : ℚ) :
    pyMod x 90 = 0 ↔ ∃ k : ℤ, x = 90 * (k : ℚ) := by
  unfold pyMod
  constructor
  · intro h
    exact ⟨⌊x / 90⌋, by linarith⟩
  · rintro ⟨k, rfl⟩
    have h90 : (90 : ℚ) ≠ 0 := by norm_num
    rw [mul_comm, mul_div_assoc, div_self h90, mul_one, Int.floor_intCast]
    ring

/- ## Progress of the wrapper: non-whitespace content yields a line -/

lemma dropTrailingWs_eq_nil (l : List (List Char)) (h : dropTrailingWs l = []) :
    l = [] ∨ ∃ w, l = [w] ∧ isWsChunk w = true := by
  unfold dropTrailingWs at h
  cases hlast : l.getLast? with
  | none => exact Or.inl (List.getLast?_eq_none_iff.mp hlast)
  | some c =>
    simp only [hlast] at h
    by_cases hws : isWsChunk c = true
    · rw [if_pos hws] at h
      refine Or.inr ⟨c, ?_, hws⟩
      have hne : l ≠ [] := by
        intro h0
        rw [h0] at hlast
        simp at hlast
      have := List.dropLast_append_getLast hne
      rw [List.getLast?_eq_getLast l hne] at hlast
      simp only [Option.some.injEq] at hlast
      rw [← this, h, hlast]
      rfl
    · rw [if_neg hws] at h
      rw [h] at hlast
      simp at hlast

lemma greedyTake_split (width : Nat) :
    ∀ (n : Nat) (cs : List (List Char)),
      cs = (greedyTake width n cs).1 ++ (greedyTake width n cs).2 := by
  intro n cs
  induction cs generalizing n with
  | nil => rfl
  | cons c rest ih =>
    by_cases hc : n + c.length ≤ width
    · simp only [greedyTake, if_pos hc]
      have := ih (n + c.length)
      conv_lhs => rw [this]
      rfl
    · simp only [greedyTake, if_neg hc]
      rfl

lemma greedyTake_head_refused (width n : Nat) (c : List Char)
    (rest : List (List Char))
    (h : (greedyTake width n (c :: rest)).1 = []) : width < n + c.length := by
  by_cases hc : n + c.length ≤ width
  · simp only [greedyTake, if_pos hc] at h
    exact absurd h (by simp)
  · exact Nat.lt_of_not_le hc

lemma notWs_drop_of_take (c : List Char) (k : Nat)
    (hc : isWsChunk c = false) (ht : isWsChunk (c.take k) = true) :
    isWsChunk (c.drop k) = false := by
  cases hdrop : isWsChunk (c.drop k) with
  | false => rfl
  | true =>
    exfalso
    have hall : isWsChunk c = true := by
      simp only [isWsChunk, List.all_eq_true] at ht hdrop ⊢
      intro x hx
      rw [← List.take_append_drop k c] at hx
      rcases List.mem_append.mp hx with hx1 | hx2
      · exact ht x hx1
      · exact hdrop x hx2
    rw [hall] at hc
    cases hc

/-- When one `_wrap_chunks` iteration produces no line (the current line is
empty after the whitespace drop), the remaining chunks still hold the
non-whitespace content and their total size strictly decreased. -/
lemma wrapStep_progress (width : Nat) (cs1 : List (List Char))
    (hnw : ∃ c ∈ cs1, isWsChunk c = false)
    (hcur : dropTrailingWs (wrapStep width cs1).1 = []) :
    ((wrapStep width cs1).2.map List.length).sum + (wrapStep width cs1).2.length <
      (cs1.map List.length).sum + cs1.length ∧
    ∃ c ∈ (wrapStep width cs1).2, isWsChunk c = false := by
  obtain ⟨cnw, hmem, hnwc⟩ := hnw
  have hsplit := greedyTake_split width 0 cs1
  unfold wrapStep at hcur ⊢
  cases hrem : (greedyTake width 0 cs1).2 with
  | nil =>
    exfalso
    rw [hrem, List.append_nil] at hsplit
    simp only [hrem] at hcur
    rcases dropTrailingWs_eq_nil _ hcur with h0 | ⟨w, hw, hws⟩
    · rw [h0] at hsplit
      rw [hsplit] at hmem
      cases hmem
    · rw [hw] at hsplit
      rw [hsplit] at hmem
      have heq : cnw = w := List.mem_singleton.mp hmem
      rw [heq, hws] at hnwc
      cases hnwc
  | cons c rtl =>
    simp only [hrem] at hcur ⊢
    rw [hrem] at hsplit
    by_cases hlong : width < c.length
    · rw [if_pos hlong] at hcur ⊢
      rcases dropTrailingWs_eq_nil _ hcur with h0 | ⟨w, hw, hws⟩
      · exact absurd h0 (by simp)
      · cases hp1 : (greedyTake width 0 cs1).1 with
        | cons x xs =>
          rw [hp1] at hw
          exact absurd hw (by simp)
        | nil =>
          rw [hp1] at hw
          simp only [List.nil_append, List.cons.injEq, and_true] at hw
          rw [hp1, List.nil_append] at hsplit
          have hws2 : isWsChunk (c.take (if width < 1 then 1 else
              width - (([] : List (List Char)).map List.length).sum)) = true := by
            rw [hw]
            exact hws
          have hK1 : 1 ≤ (if width < 1 then 1 else
              width - (([] : List (List Char)).map List.length).sum) := by
            by_cases hw1 : width < 1
            · rw [if_pos hw1]
            · rw [if_neg hw1]
              simp
              omega
          have hclen : 1 ≤ c.length := by omega
          constructor
          · simp only [List.map_cons, List.sum_cons, List.length_cons,
              List.length_drop, hsplit]
            omega
          · rw [hsplit] at hmem
            rcases List.mem_cons.mp hmem with rfl | htl
            · exact ⟨cnw.drop _, by simp,
                notWs_drop_of_take cnw _ hnwc hws2⟩
            · exact ⟨cnw, by simp [htl], hnwc⟩
    · rw [if_neg hlong] at hcur ⊢
      rcases dropTrailingWs_eq_nil _ hcur with h0 | ⟨w, hw, hws⟩
      · exfalso
        rw [h0, List.nil_append] at hsplit
        rw [hsplit] at h0
        have := greedyTake_head_refused width 0 c rtl h0
        omega
      · rw [hw] at hsplit
        constructor
        · rw [hsplit]
          simp only [List.map_append, List.sum_append, List.length_append,
            List.map_cons, List.sum_cons, List.map_nil, List.sum_nil,
            List.length_cons, List.length_nil]
          omega
        · rw [hsplit] at hmem
          rcases List.mem_cons.mp hmem with rfl | htl
          · rw [hws] at hnwc
            cases hnwc
          · exact ⟨cnw, htl, hnwc⟩

/-- With enough fuel (more than the total chunk size), `_wrap_chunks`
produces at least one line whenever some chunk holds non-whitespace
content. -/
lemma wrapGo_ne_nil (width : Nat) :
    ∀ (fuel : Nat) (first : Bool) (chunks : List (List Char)),
      (chunks.map List.length).sum + chunks.length < fuel →
      (∃ c ∈ chunks, isWsChunk c = false) →
      wrapGo width fuel first chunks ≠ [] := by
  intro fuel
  induction fuel with
  | zero =>
    intro first chunks hm _
    omega
  | succ fuel ih =>
    intro first chunks hm hnw
    match chunks, hnw with
    | c0 :: rest0, hnw =>
      simp only [wrapGo]
      by_cases hskip : (!first && isWsChunk c0) = true
      · rw [if_pos hskip]
        have hc0ws : isWsChunk c0 = true := by
          rcases Bool.and_eq_true_iff.mp hskip with ⟨_, h⟩
          exact h
        have hnw1 : ∃ c ∈ rest0, isWsChunk c = false := by
          obtain ⟨cnw, hmem, hnwc⟩ := hnw
          rcases List.mem_cons.mp hmem with rfl | htl
          · rw [hc0ws] at hnwc
            cases hnwc
          · exact ⟨cnw, htl, hnwc⟩
        have hm1 : (rest0.map List.length).sum + rest0.length <
            ((c0 :: rest0).map List.length).sum + (c0 :: rest0).length := by
          simp
          omega
        by_cases hcur : (dropTrailingWs (wrapStep width rest0).1).isEmpty
        · rw [if_pos hcur]
          have hprog := wrapStep_progress width rest0 hnw1
            (List.isEmpty_iff.mp hcur)
          exact ih first _ (by omega) hprog.2
        · rw [if_neg hcur]
          simp
      · rw [if_neg hskip]
        by_cases hcur : (dropTrailingWs (wrapStep width (c0 :: rest0)).1).isEmpty
        · rw [if_pos hcur]
          have hprog := wrapStep_progress width (c0 :: rest0) hnw
            (List.isEmpty_iff.mp hcur)
          exact ih first _ (by omega) hprog.2
        · rw [if_neg hcur]
          simp

/-- A non-empty output of the `split_words` scan exhibits a word character
(CJK, digit, or ASCII letter) in the text. -/
lemma splitWordsGo_word_char :
    ∀ (fuel : Nat) (s : List Char), splitWordsGo fuel s ≠ [] →
      ∃ ch ∈ s, (isCJKChar ch || isDigitChar ch || isAsciiLetter ch) = true := by
  intro fuel
  induction fuel with
  | zero =>
    intro s h
    cases s with
    | nil => exact absurd rfl h
    | cons c rest => exact absurd rfl h
  | succ fuel ih =>
    intro s h
    match s with
    | [] => exact absurd rfl h
    | c :: rest =>
      by_cases hcjk : isCJKChar c = true
      · exact ⟨c, by simp, by simp [hcjk]⟩
      · by_cases hdig : isDigitChar c = true
        · exact ⟨c, by simp, by simp [hdig]⟩
        · by_cases half : isAsciiLetter c = true
          · exact ⟨c, by simp, by simp [half]⟩
          · simp only [splitWordsGo, hcjk, hdig, half, Bool.false_eq_true,
              if_false] at h
            obtain ⟨ch, hmem, hch⟩ := ih rest h
            exact ⟨ch, by simp [hmem], hch⟩

/-- Non-tab characters survive `expandtabs`. -/
lemma pyExpandtabs_mem (s : List Char) (c : Char) (hc : c ∈ s)
    (htab : c ≠ '\t') : c ∈ pyExpandtabs s := by
  unfold pyExpandtabs
  suffices h : ∀ (acc : List Char × Nat),
      (c ∈ acc.1 ∨ c ∈ s) → c ∈ (s.foldl
        (fun (acc : List Char × Nat) d =>
          if d = '\t' then
            (acc.1 ++ List.replicate (8 - acc.2 % 8) ' ', acc.2 + (8 - acc.2 % 8))
          else if d = '\n' ∨ d = Char.ofNat 13 then (acc.1 ++ [d], 0)
          else (acc.1 ++ [d], acc.2 + 1)) acc).1 by
    exact h ([], 0) (Or.inr hc)
  clear hc
  induction s with
  | nil =>
    intro acc hacc
    rcases hacc with h1 | h1
    · exact h1
    · cases h1
  | cons d rest ih =>
    intro acc hacc
    simp only [List.foldl_cons]
    by_cases hd : d = '\t'
    · rw [if_pos hd]
      apply ih
      rcases hacc with h1 | h1
      · exact Or.inl (by simp [h1])
      · rcases List.mem_cons.mp h1 with rfl | htl
        · exact absurd hd htab
        · exact Or.inr htl
    · rw [if_neg hd]
      have hnext : ∀ (acc2 : List Char × Nat), acc2.1 = acc.1 ++ [d] →
          c ∈ acc2.1 ∨ c ∈ rest := by
        intro acc2 hacc2
        rcases hacc with h1 | h1
        · exact Or.inl (by simp [hacc2, h1])
        · rcases List.mem_cons.mp h1 with rfl | htl
          · exact Or.inl (by simp [hacc2])
          · exact Or.inr htl
      by_cases hnl : d = '\n' ∨ d = Char.ofNat 13
      · rw [if_pos hnl]
        exact ih _ (hnext _ rfl)
      · rw [if_neg hnl]
        exact ih _ (hnext _ rfl)

/-- A word character of the text appears, unchanged and distinct from the
space character, in the munged text. -/
lemma munge_has_nonspace (txt : List Char) (c : Char) (hc : c ∈ txt)
    (hword : (isCJKChar c || isDigitChar c || isAsciiLetter c) = true) :
    ∃ ch ∈ mungeWhitespace txt, ¬ ch = ' ' := by
  have htab : c ≠ '\t' := by
    rintro rfl
    exact absurd hword (by decide)
  have hws : isPyWhitespace c = false := by
    cases hpw : isPyWhitespace c with
    | false => rfl
    | true =>
      exfalso
      have h1 : c = ' ' ∨ c = '\t' ∨ c = '\n' ∨ c = Char.ofNat 11 ∨
          c = Char.ofNat 12 ∨ c = Char.ofNat 13 := by
        simpa [isPyWhitespace, or_assoc] using hpw
      rcases h1 with rfl | rfl | rfl | rfl | rfl | rfl <;>
        exact absurd hword (by decide)
  have hmem := pyExpandtabs_mem txt c hc htab
  refine ⟨c, ?_, ?_⟩
  · unfold mungeWhitespace
    have : (if isPyWhitespace c then ' ' else c) = c := by rw [hws]; rfl
    rw [← this]
    exact List.mem_map_of_mem _ hmem
  · rintro rfl
    exact absurd hword (by decide)

/-- A text with a non-space character splits into chunks one of which is
not whitespace. -/
lemma splitChunksGo_has_nonws :
    ∀ (fuel : Nat) (s : List Char), s.length < fuel →
      (∃ ch ∈ s, ¬ ch = ' ') →
      ∃ c ∈ splitChunksGo fuel s, isWsChunk c = false := by
  intro fuel
  induction fuel with
  | zero =>
    intro s hm _
    omega
  | succ fuel ih =>
    intro s hm hch
    match s, hch with
    | c0 :: rest, hch =>
      by_cases h0 : c0 = ' '
      · have hstep : splitChunksGo (fuel + 1) (c0 :: rest) =
            ((c0 :: rest).takeWhile (fun d => decide (d = ' '))) ::
              splitChunksGo fuel
                ((c0 :: rest).dropWhile (fun d => decide (d = ' '))) := by
          simp only [splitChunksGo, if_pos h0]
        obtain ⟨ch, hmem, hch2⟩ := hch
        have hchrest : ch ∈ (c0 :: rest).dropWhile (fun d => decide (d = ' ')) := by
          have hsplit := List.takeWhile_append_dropWhile
            (p := fun d => decide (d = ' ')) (l := c0 :: rest)
          rw [← hsplit] at hmem
          rcases List.mem_append.mp hmem with h1 | h1
          · exfalso
            have := List.mem_takeWhile_imp h1
            simp at this
            exact hch2 this
          · exact h1
        have hlen : ((c0 :: rest).dropWhile (fun d => decide (d = ' '))).length <
            fuel := by
          have h1 : List.dropWhile (fun d => decide (d = ' ')) (c0 :: rest) =
              List.dropWhile (fun d => decide (d = ' ')) rest := by
            rw [List.dropWhile_cons]
            simp [h0]
          rw [h1]
          have hsub := (List.dropWhile_sublist
            (p := fun d => decide (d = ' ')) (l := rest)).length_le
          simp only [List.length_cons] at hm
          omega
        obtain ⟨chunk, hcm, hcw⟩ := ih _ hlen ⟨ch, hchrest, hch2⟩
        rw [hstep]
        exact ⟨chunk, List.mem_cons_of_mem _ hcm, hcw⟩
      · have hstep : splitChunksGo (fuel + 1) (c0 :: rest) =
            ((c0 :: rest).takeWhile (fun d => decide (¬ d = ' '))) ::
              splitChunksGo fuel
                ((c0 :: rest).dropWhile (fun d => decide (¬ d = ' '))) := by
          simp only [splitChunksGo, if_neg h0]
        rw [hstep]
        refine ⟨(c0 :: rest).takeWhile (fun d => decide (¬ d = ' ')),
          List.mem_cons_self _ _, ?_⟩
        have hhead : (c0 :: rest).takeWhile (fun d => decide (¬ d = ' ')) =
            c0 :: rest.takeWhile (fun d => decide (¬ d = ' ')) := by
          rw [List.takeWhile_cons]
          simp [h0]
        rw [hhead]
        simp [isWsChunk, h0]

/-- A text with at least one word wraps into at least one line. -/
lemma textwrap_wrap_ne_nil (txt : List Char) (width : Nat)
    (hwords : split_words txt ≠ []) : textwrap_wrap txt width ≠ [] := by
  unfold split_words at hwords
  obtain ⟨wc, hwc, hword⟩ := splitWordsGo_word_char _ txt hwords
  obtain ⟨ch, hch, hchns⟩ := munge_has_nonspace txt wc hwc hword
  obtain ⟨chunk, hcm, hcw⟩ := splitChunksGo_has_nonws _ (mungeWhitespace txt)
    (Nat.lt_succ_self _) ⟨ch, hch, hchns⟩
  have hcm2 : chunk ∈ splitChunks (mungeWhitespace txt) := hcm
  simp only [textwrap_wrap]
  exact wrapGo_ne_nil width _ true _ (Nat.lt_succ_self _) ⟨chunk, hcm2, hcw⟩

/-- With at least one word, `get_wrapped_fontsize` raises no exception. -/
lemma get_wrapped_fontsize_isOk (r : Renderer) (txt : List Char)
    (hpx wpx : ℚ) (n : Nat) (ls dpi refSize : ℚ)
    (hwords : split_words txt ≠ []) :
    ∃ res, get_wrapped_fontsize r txt hpx wpx n ls dpi refSize = .ok res := by
  obtain ⟨L, hL⟩ := pyMaxNat_isOk _
    (by simpa using hwords :
      ((split_words txt).map List.length) ≠ [])
  have hlines := textwrap_wrap_ne_nil txt (max L (txt.length / n)) hwords
  obtain ⟨wB, hwB⟩ := pyMinQ_isOk
    ((textwrap_wrap txt (max L (txt.length / n))).map
      (fun line => refSize * wpx / (r.rawWidth line refSize dpi / 64)))
    (by simpa using hlines)
  obtain ⟨gap, hgap⟩ := pyMinQ_isOk
    ((textwrap_wrap txt (max L (txt.length / n))).map
      (fun line => |r.rawWidth line
        (min (calc_fontsize_from_height hpx
          (textwrap_wrap txt (max L (txt.length / n))).length ls dpi) wB)
        dpi / 64 - wpx|))
    (by simpa using hlines)
  have hcalc : calc_fontsize_from_width r
      (textwrap_wrap txt (max L (txt.length / n))) wpx dpi refSize = .ok wB := hwB
  have hgap2 : get_line_gap_from_boxedge r
      (textwrap_wrap txt (max L (txt.length / n)))
      (min (calc_fontsize_from_height hpx
        (textwrap_wrap txt (max L (txt.length / n))).length ls dpi) wB)
      wpx dpi = .ok gap := hgap
  refine ⟨(min (calc_fontsize_from_height hpx
      (textwrap_wrap txt (max L (txt.length / n))).length ls dpi) wB,
    textwrap_wrap txt (max L (txt.length / n)), gap), ?_⟩
  simp only [get_wrapped_fontsize, hL, hcalc, hgap2]

/-- The loop-and-append pattern succeeds when every element does. -/
lemma mapMList_isOk_of_all {α β : Type} (f : α → Except PyErr β) :
    ∀ (l : List α), (∀ a ∈ l, ∃ b, f a = .ok b) →
      ∃ bs, mapMList f l = .ok bs := by
  intro l
  induction l with
  | nil => exact fun _ => ⟨[], rfl⟩
  | cons a as ih =>
    intro hall
    obtain ⟨b, hb⟩ := hall a (by simp)
    obtain ⟨bs, hbs⟩ := ih (fun x hx => hall x (by simp [hx]))
    exact ⟨b :: bs, by simp only [mapMList, hb, hbs]⟩

/-- The candidate selection succeeds on a non-empty candidate list. -/
lemma select_candidate_cons_isOk (grow : Bool)
    (c0 : ℚ × List (List Char) × ℚ)
    (cs : List (ℚ × List (List Char) × ℚ)) :
    ∃ best, select_candidate grow (c0 :: cs) = .ok best := by
  cases grow with
  | true => exact ⟨_, rfl⟩
  | false => exact ⟨_, rfl⟩

/-- C8: `dist2pixels` maps a logical displacement `(dx, dy)` to pixels by
transforming both the origin and the offset point and subtracting, and
`pixels2dist`, which uses the inverted transform, is its exact inverse for
every invertible affine transform, including non-uniform and rotated ones. -/
theorem dist2pixels_pixels2dist_inverse (t : Affine2) (dx dy : ℚ)
    (hdet : t.det ≠ 0) :
    dist2pixels t dx dy =
      ((t.transform (dx, dy)).1 - (t.transform (0, 0)).1,
        (t.transform (dx, dy)).2 - (t.transform (0, 0)).2) ∧
    pixels2dist t (dist2pixels t dx dy).1 (dist2pixels t dx dy).2 = (dx, dy) := by
  constructor
  · rfl
  · unfold Affine2.det at hdet
    unfold pixels2dist dist2pixels Affine2.inverted Affine2.transform Affine2.det
    simp only [Prod.mk.injEq]
    constructor <;> (field_simp; ring)

/-- Closed instance of C8 at a sheared, non-uniform transform. -/
theorem dist2pixels_pixels2dist_inverse_witness :
    pixels2dist ⟨1, 2, 3, 4, 5, 6⟩
        (dist2pixels ⟨1, 2, 3, 4, 5, 6⟩ 7 9).1
        (dist2pixels ⟨1, 2, 3, 4, 5, 6⟩ 7 9).2 = (7, 9) :=
  (dist2pixels_pixels2dist_inverse ⟨1, 2, 3, 4, 5, 6⟩ 7 9
    (by norm_num [Affine2.det])).2

/-- C7: the clamped font size lies in `[minSize, maxSize]` whenever the
provided bounds are compatible, and an unconstrained fit below `minSize` is
raised to `minSize` with `fits = false`. -/
theorem clamp_fontsize_spec (minSize maxSize : Option ℚ) (fitted : ℚ)
    (hcompat : ∀ m M, minSize = some m → maxSize = some M → m ≤ M) :
    (∀ m, minSize = some m → m ≤ (clamp_fontsize minSize maxSize fitted).1) ∧
    (∀ M, maxSize = some M → (clamp_fontsize minSize maxSize fitted).1 ≤ M) ∧
    (∀ m, minSize = some m → fitted < m →
      clamp_fontsize minSize maxSize fitted = (m, false)) := by
  refine ⟨?_, ?_, ?_⟩
  · intro m hm
    subst hm
    unfold clamp_fontsize
    cases maxSize with
    | none =>
      by_cases hlt : fitted < m
      · simp [hlt]
      · simp [hlt, le_of_not_lt hlt]
    | some M =>
      by_cases hlt : min fitted M < m
      · simp [hlt]
      · simp [hlt, le_of_not_lt hlt]
  · intro M hM
    subst hM
    unfold clamp_fontsize
    cases minSize with
    | none => simp [min_le_right]
    | some m =>
      by_cases hlt : min fitted M < m
      · simp only [hlt, if_pos]
        exact hcompat m M rfl rfl
      · simp [hlt, min_le_right]
  · intro m hm hlt
    subst hm
    unfold clamp_fontsize
    cases maxSize with
    | none => simp [hlt]
    | some M => simp [lt_of_le_of_lt (min_le_left fitted M) hlt]

/-- Closed instance of C7: bounds `[5, 8]`, unconstrained fit 3. -/
theorem clamp_fontsize_spec_witness :
    5 ≤ (clamp_fontsize (some 5) (some 8) 3).1 ∧
    (clamp_fontsize (some 5) (some 8) 3).1 ≤ 8 ∧
    clamp_fontsize (some 5) (some 8) 3 = (5, false) := by
  have h := clamp_fontsize_spec (some 5) (some 8) 3
    (by
      intro m M hm hM
      injection hm with hm
      injection hM with hM
      subst hm
      subst hM
      norm_num)
  exact ⟨h.1 5 rfl, h.2.1 8 rfl, h.2.2 5 rfl (by norm_num)⟩

/-- C1: with a non-negative box and a positive current font size, no-wrap
autofit returns the current size scaled by the smaller of the ratios of the
box's pixel dimensions to the rendered bounding box's dimensions, leaving
the content unchanged. -/
theorem no_wrap_fontsize_formula (t : TextObj) (r : Renderer) (tr : Affine2)
    (w h dpi : ℚ) (grow : Bool) (hw : 0 ≤ w) (hh : 0 ≤ h)
    (hfs : 0 < t.fontsize) :
    text_with_autofit t w h false grow tr r dpi =
      .ok { t with fontsize := (t.fontsize *
        min ((dist2pixels tr w h).1 / (r.windowExtent t.text t.fontsize).1)
          ((dist2pixels tr w h).2 / (r.windowExtent t.text t.fontsize).2)) } := by
  have h1 : ¬(w < 0 ∨ h < 0) := by
    push_neg
    exact ⟨hw, hh⟩
  have key : ∀ a b bw bh : ℚ,
      min (t.fontsize * a / bw) (t.fontsize * b / bh) =
        t.fontsize * min (a / bw) (b / bh) := by
    intro a b bw bh
    rw [mul_div_assoc, mul_div_assoc]
    rcases le_total (a / bw) (b / bh) with hab | hab
    · rw [min_eq_left hab,
        min_eq_left (mul_le_mul_of_nonneg_left hab (le_of_lt hfs))]
    · rw [min_eq_right hab,
        min_eq_right (mul_le_mul_of_nonneg_left hab (le_of_lt hfs))]
  simp only [text_with_autofit, if_neg h1, Bool.false_eq_true, false_and,
    if_false, ite_false, key]

/-- Closed instance of C1, the spec's concrete scenario: a 200 by 50 box, a
reported 300 by 20 unwrapped bounding box, initial size 10; the adjusted
size is `min(10*200/300, 10*50/20) = 20/3`. -/
theorem no_wrap_fontsize_formula_witness :
    text_with_autofit c1Text 200 50 false false idTransform c1Renderer 72 =
      .ok { c1Text with fontsize := 20 / 3 } ∧
    (20 : ℚ) / 3 = min (10 * 200 / 300) (10 * 50 / 20) := by
  constructor
  · have h := no_wrap_fontsize_formula c1Text c1Renderer idTransform 200 50 72
      false (by norm_num) (by norm_num) (by norm_num [c1Text])
    rw [h]
    have hd : dist2pixels idTransform 200 50 = (200, 50) := by
      norm_num [dist2pixels, idTransform, Affine2.transform]
    rw [hd]
    congr 1
    congr 1
    show (10 : ℚ) * min ((200 : ℚ) / 300) ((50 : ℚ) / 20) = 20 / 3
    rw [min_eq_left (by norm_num)]
    norm_num
  · norm_num

set_option maxHeartbeats 1000000 in
/-- C3: among the wrap-search candidates for line counts 2 through the word
count, the selection returns a candidate of the list; with `grow` it is the
first candidate attaining the largest font size, without `grow` the first
candidate attaining the smallest edge gap — ties in both modes resolved in
favour of the earlier line count. -/
theorem select_candidate_policy (grow : Bool) (r : Renderer) (dpi wpx hpx : ℚ)
    (t : TextObj) (cs : List (ℚ × List (List Char) × ℚ))
    (c : ℚ × List (List Char) × ℚ)
    (hcs : wrap_candidates r dpi t wpx hpx = .ok cs)
    (hsel : select_candidate grow cs = .ok c) :
    ∃ l1 l2, cs = l1 ++ c :: l2 ∧
      (grow = true → (∀ y ∈ cs, y.1 ≤ c.1) ∧ ∀ y ∈ l1, y.1 < c.1) ∧
      (grow = false → (∀ y ∈ cs, c.2.2 ≤ y.2.2) ∧ ∀ y ∈ l1, c.2.2 < y.2.2) := by
  cases grow with
  | true =>
    unfold select_candidate at hsel
    rw [if_pos rfl] at hsel
    obtain ⟨l1, l2, heq, hbnd, hpre⟩ := pyMaxByKey_spec (fun x => x.1) cs c hsel
    exact ⟨l1, l2, heq, fun _ => ⟨hbnd, hpre⟩, fun hff => by simp at hff⟩
  | false =>
    unfold select_candidate at hsel
    rw [if_neg Bool.false_ne_true] at hsel
    obtain ⟨l1, l2, heq, hbnd, hpre⟩ := pyMinByKey_spec (fun x => x.2.2) cs c hsel
    exact ⟨l1, l2, heq, fun hff => by simp at hff, fun _ => ⟨hbnd, hpre⟩⟩

set_option maxHeartbeats 2000000 in
/-- Closed instance of C3: for "aaaa bb cc" both candidates (2 and 3 lines)
reach font size 2, and the growing selection keeps the first. -/
theorem select_candidate_policy_witness :
    ∃ l1 l2,
      ([((2 : ℚ), ["aaaa".toList, "bb cc".toList], (0 : ℚ)),
        ((2 : ℚ), ["aaaa".toList, "bb".toList, "cc".toList], (2 : ℚ))] :
          List (ℚ × List (List Char) × ℚ)) =
        l1 ++ ((2 : ℚ), ["aaaa".toList, "bb cc".toList], (0 : ℚ)) :: l2 ∧
      (true = true →
        (∀ y ∈ ([((2 : ℚ), ["aaaa".toList, "bb cc".toList], (0 : ℚ)),
          ((2 : ℚ), ["aaaa".toList, "bb".toList, "cc".toList], (2 : ℚ))] :
            List (ℚ × List (List Char) × ℚ)),
          y.1 ≤ (((2 : ℚ), ["aaaa".toList, "bb cc".toList], (0 : ℚ)) :
            ℚ × List (List Char) × ℚ).1) ∧
        ∀ y ∈ l1, y.1 < (((2 : ℚ), ["aaaa".toList, "bb cc".toList], (0 : ℚ)) :
          ℚ × List (List Char) × ℚ).1) ∧
      (true = false →
        (∀ y ∈ ([((2 : ℚ), ["aaaa".toList, "bb cc".toList], (0 : ℚ)),
          ((2 : ℚ), ["aaaa".toList, "bb".toList, "cc".toList], (2 : ℚ))] :
            List (ℚ × List (List Char) × ℚ)),
          (((2 : ℚ), ["aaaa".toList, "bb cc".toList], (0 : ℚ)) :
            ℚ × List (List Char) × ℚ).2.2 ≤ y.2.2) ∧
        ∀ y ∈ l1, (((2 : ℚ), ["aaaa".toList, "bb cc".toList], (0 : ℚ)) :
          ℚ × List (List Char) × ℚ).2.2 < y.2.2) :=
  select_candidate_policy true monoRenderer 72 10 6
    ⟨"aaaa bb cc".toList, 1, 0, 1, 10⟩ _ _
    (by with_unfolding_all decide) (by with_unfolding_all decide)

/-- C2 (amended): each wrap candidate for line count `n` wraps the text at
target width `max(longestWordLength, totalLength / n)` — a width never
below the longest word's length — and its font size is
`min(heightBound, widthBound)`, where the height bound converts
`boxHeightPx / (k·linespacing − linespacing + 1)` to points for `k` the
number of lines the wrapper actually produced (not the candidate `n`), and
the width bound is the minimum over the wrapped lines of
`referenceSize * boxWidthPx / measuredLineWidthPx`. -/
theorem wrapped_candidate_formula (r : Renderer) (txt : List Char)
    (hpx wpx : ℚ) (n : Nat) (ls dpi refSize : ℚ) (L : Nat)
    (hmax : pyMaxNat ((split_words txt).map List.length) = .ok L)
    (hlines : textwrap_wrap txt (max L (txt.length / n)) ≠ []) :
    L ≤ max L (txt.length / n) ∧
    ∃ wB gap,
      get_wrapped_fontsize r txt hpx wpx n ls dpi refSize =
        .ok (min (pixels2points dpi (hpx /
            (((textwrap_wrap txt (max L (txt.length / n))).length : ℚ) * ls - ls + 1)))
          wB,
          textwrap_wrap txt (max L (txt.length / n)), gap) ∧
      (∀ line ∈ textwrap_wrap txt (max L (txt.length / n)),
        wB ≤ refSize * wpx / (r.rawWidth line refSize dpi / 64)) ∧
      (∃ line ∈ textwrap_wrap txt (max L (txt.length / n)),
        wB = refSize * wpx / (r.rawWidth line refSize dpi / 64)) := by
  refine ⟨le_max_left _ _, ?_⟩
  have hmapne : (textwrap_wrap txt (max L (txt.length / n))).map
      (fun line => refSize * wpx / (r.rawWidth line refSize dpi / 64)) ≠ [] := by
    simpa using hlines
  obtain ⟨wB, hwB⟩ := pyMinQ_isOk _ hmapne
  have hwBspec := pyMinQ_spec _ _ hwB
  have hgapne : (textwrap_wrap txt (max L (txt.length / n))).map
      (fun line => |r.rawWidth line
        (min (calc_fontsize_from_height hpx
          (textwrap_wrap txt (max L (txt.length / n))).length ls dpi) wB)
        dpi / 64 - wpx|) ≠ [] := by
    simpa using hlines
  obtain ⟨gap, hgap⟩ := pyMinQ_isOk _ hgapne
  refine ⟨wB, gap, ?_, ?_, ?_⟩
  · have hcalc : calc_fontsize_from_width r
        (textwrap_wrap txt (max L (txt.length / n))) wpx dpi refSize = .ok wB := hwB
    have hgap2 : get_line_gap_from_boxedge r
        (textwrap_wrap txt (max L (txt.length / n)))
        (min (calc_fontsize_from_height hpx
          (textwrap_wrap txt (max L (txt.length / n))).length ls dpi) wB)
        wpx dpi = .ok gap := hgap
    simp only [get_wrapped_fontsize, hmax, hcalc, hgap2]
    rfl
  · intro line hline
    exact hwBspec.2 _ (List.mem_map_of_mem _ hline)
  · obtain ⟨line, hline, heq⟩ := List.mem_map.mp hwBspec.1
    exact ⟨line, hline, heq.symm⟩

/-- Closed instance of the amended C2 at the two-word text "aa bb" with
candidate line count 2. -/
theorem wrapped_candidate_formula_witness :
    (2 : Nat) ≤ max 2 ("aa bb".toList.length / 2) ∧
    ∃ wB gap,
      get_wrapped_fontsize monoRenderer ("aa bb".toList) 10 10 2 1 72 10 =
        .ok (min (pixels2points 72 (10 /
            (((textwrap_wrap ("aa bb".toList)
              (max 2 ("aa bb".toList.length / 2))).length : ℚ) * 1 - 1 + 1)))
          wB,
          textwrap_wrap ("aa bb".toList) (max 2 ("aa bb".toList.length / 2)), gap) ∧
      (∀ line ∈ textwrap_wrap ("aa bb".toList) (max 2 ("aa bb".toList.length / 2)),
        wB ≤ 10 * 10 / (monoRenderer.rawWidth line 10 72 / 64)) ∧
      (∃ line ∈ textwrap_wrap ("aa bb".toList) (max 2 ("aa bb".toList.length / 2)),
        wB = 10 * 10 / (monoRenderer.rawWidth line 10 72 / 64)) :=
  wrapped_candidate_formula monoRenderer ("aa bb".toList) 10 10 2 1 72 10 2
    (by with_unfolding_all decide) (by with_unfolding_all decide)

/-- C2 counterexample: for "incomprehensibilities a b" at candidate line
count `n = 3` the wrapper produces only 2 lines, so the code's candidate
font size (3, from the produced line count) differs from the claimed
formula's value (2, from `n`): the height bound of the claim does not match
the code. -/
theorem wrapped_candidate_height_bound_cex :
    (get_wrapped_fontsize monoRenderer ("incomprehensibilities a b".toList)
        6 10000 3 1 72 10).map (fun c => c.1) = .ok 3 ∧
    claimed_candidate_size monoRenderer ("incomprehensibilities a b".toList)
        6 10000 3 1 72 10 = .ok 2 ∧
    (Except.ok (3 : ℚ) : Except PyErr ℚ) ≠ .ok 2 := by
  refine ⟨?_, ?_, ?_⟩ <;> with_unfolding_all decide

/-- C5 counterexample: for the weights `[-1, 2, 3]` in the rectangle
`(0, 0, 6, 4)` the layout call returns a three-rectangle layout — the
source has no weight validation and no failure path — instead of raising
an error. -/
theorem squarify_data_negative_weights_cex :
    squarify_data [⟨"a", -1⟩, ⟨"b", 2⟩, ⟨"c", 3⟩] 0 0 6 4 false =
      [(⟨"a", -1⟩, ⟨15 / 2, 0, -3 / 2, 4⟩),
        (⟨"b", 2⟩, ⟨9 / 2, 0, 3, 4⟩),
        (⟨"c", 3⟩, ⟨0, 0, 9 / 2, 4⟩)] := by
  with_unfolding_all decide

/-- C5 (amended): `squarify_data` performs no weight validation and cannot
fail: every weight list — negative weights and zero totals included —
yields a layout pairing each input row, in input order, with a rectangle;
on `[-1, 2, 3]` the negative weight surfaces as a rectangle of negative
width rather than an error. -/
theorem squarify_data_no_validation (items : List Item) (x y dx dy : ℚ)
    (split : Bool) :
    (squarify_data items x y dx dy split).map Prod.fst = items ∧
    ∃ p ∈ squarify_data [⟨"a", -1⟩, ⟨"b", 2⟩, ⟨"c", 3⟩] 0 0 6 4 false,
      p.2.dx < 0 := by
  constructor
  · simp [squarify_data, List.map_map, Function.comp_def]
  · refine ⟨(⟨"a", -1⟩, ⟨15 / 2, 0, -3 / 2, 4⟩), ?_, by norm_num⟩
    with_unfolding_all decide

/-- C6: one parent's child group is laid out inside the parent rectangle
inset by the resolved left/right/top/bottom paddings, except that the
insets are skipped entirely — the children are laid out in the full
unpadded parent rectangle — when the group's first (index 0) key is the
falsy empty-string key that a missing/NaN level value was filled with. -/
theorem child_group_padding (children : List Item) (parentRect : SqRect)
    (pad : PadSpec) :
    squarify_child_group children parentRect pad =
      (if children.head?.elim false (fun it => it.key = "") then
        squarify_data children parentRect.x parentRect.y parentRect.dx
          parentRect.dy false
      else
        squarify_data children
          (spec_inset_rect parentRect (get_surrounding_pad pad).1
            (get_surrounding_pad pad).2.1 (get_surrounding_pad pad).2.2.1
            (get_surrounding_pad pad).2.2.2).x
          (spec_inset_rect parentRect (get_surrounding_pad pad).1
            (get_surrounding_pad pad).2.1 (get_surrounding_pad pad).2.2.1
            (get_surrounding_pad pad).2.2.2).y
          (spec_inset_rect parentRect (get_surrounding_pad pad).1
            (get_surrounding_pad pad).2.1 (get_surrounding_pad pad).2.2.1
            (get_surrounding_pad pad).2.2.2).dx
          (spec_inset_rect parentRect (get_surrounding_pad pad).1
            (get_surrounding_pad pad).2.1 (get_surrounding_pad pad).2.2.1
            (get_surrounding_pad pad).2.2.2).dy
          false) := by
  unfold squarify_child_group
  cases hskip : children.head?.elim false (fun it => it.key = "") with
  | true => simp [hskip, spec_inset_rect]
  | false => simp [hskip, spec_inset_rect]

/-- Any exception out of `get_wrapped_fontsize` is one of the two
empty-sequence ValueErrors of `max()`/`min()`. -/
lemma get_wrapped_fontsize_error (r : Renderer) (txt : List Char)
    (hpx wpx : ℚ) (n : Nat) (ls dpi refSize : ℚ) (err : PyErr)
    (h : get_wrapped_fontsize r txt hpx wpx n ls dpi refSize = .error err) :
    err = .valueError "max() arg is an empty sequence" ∨
    err = .valueError "min() arg is an empty sequence" := by
  unfold get_wrapped_fontsize at h
  cases hmax : pyMaxNat ((split_words txt).map List.length) with
  | error e2 =>
    simp only [hmax, Except.error.injEq] at h
    exact Or.inl (h ▸ (pyMaxNat_error _ _ hmax).2)
  | ok L =>
    simp only [hmax] at h
    cases hcw : calc_fontsize_from_width r
        (textwrap_wrap txt (max L (txt.length / n))) wpx dpi refSize with
    | error e2 =>
      simp only [hcw, Except.error.injEq] at h
      exact Or.inr (h ▸ (pyMinByKey_error _ _ _ hcw).2)
    | ok wB =>
      simp only [hcw] at h
      cases hg : get_line_gap_from_boxedge r
          (textwrap_wrap txt (max L (txt.length / n)))
          (min (calc_fontsize_from_height hpx
            (textwrap_wrap txt (max L (txt.length / n))).length ls dpi) wB)
          wpx dpi with
      | error e2 =>
        simp only [hg, Except.error.injEq] at h
        exact Or.inr (h ▸ (pyMinByKey_error _ _ _ hg).2)
      | ok gap =>
        rw [hg] at h
        exact absurd h (by simp)

/-- When the text has at least one word, the `max()` over word lengths
succeeds, so an exception out of `get_wrapped_fontsize` is the `min()`
empty-sequence ValueError. -/
lemma get_wrapped_fontsize_error_of_words (r : Renderer) (txt : List Char)
    (hpx wpx : ℚ) (n : Nat) (ls dpi refSize : ℚ) (err : PyErr)
    (hwords : split_words txt ≠ [])
    (h : get_wrapped_fontsize r txt hpx wpx n ls dpi refSize = .error err) :
    err = .valueError "min() arg is an empty sequence" := by
  obtain ⟨L, hL⟩ := pyMaxNat_isOk ((split_words txt).map List.length)
    (by simpa using hwords)
  unfold get_wrapped_fontsize at h
  simp only [hL] at h
  cases hcw : calc_fontsize_from_width r
      (textwrap_wrap txt (max L (txt.length / n))) wpx dpi refSize with
  | error e2 =>
    simp only [hcw, Except.error.injEq] at h
    exact h ▸ (pyMinByKey_error _ _ _ hcw).2
  | ok wB =>
    simp only [hcw] at h
    cases hg : get_line_gap_from_boxedge r
        (textwrap_wrap txt (max L (txt.length / n)))
        (min (calc_fontsize_from_height hpx
          (textwrap_wrap txt (max L (txt.length / n))).length ls dpi) wB)
        wpx dpi with
    | error e2 =>
      simp only [hg, Except.error.injEq] at h
      exact h ▸ (pyMinByKey_error _ _ _ hg).2
    | ok gap =>
      rw [hg] at h
      exact absurd h (by simp)

/-- Any exception out of the candidate loop is one of the two
empty-sequence ValueErrors. -/
lemma wrap_candidates_error (r : Renderer) (dpi : ℚ) (t : TextObj)
    (wpx hpx : ℚ) (err : PyErr)
    (h : wrap_candidates r dpi t wpx hpx = .error err) :
    err = .valueError "max() arg is an empty sequence" ∨
    err = .valueError "min() arg is an empty sequence" := by
  obtain ⟨n, _, hf⟩ := mapMList_error_mem _ _ _ h
  exact get_wrapped_fontsize_error _ _ _ _ _ _ _ _ _ hf

/-- Any exception out of the candidate selection is one of the two
empty-sequence ValueErrors. -/
lemma select_candidate_error (grow : Bool)
    (cs : List (ℚ × List (List Char) × ℚ)) (err : PyErr)
    (h : select_candidate grow cs = .error err) :
    err = .valueError "max() arg is an empty sequence" ∨
    err = .valueError "min() arg is an empty sequence" := by
  unfold select_candidate at h
  cases grow with
  | true =>
    rw [if_pos rfl] at h
    exact Or.inl (pyMaxByKey_error _ _ _ h).2
  | false =>
    rw [if_neg Bool.false_ne_true] at h
    exact Or.inr (pyMinByKey_error _ _ _ h).2

/-- C9: with a valid box, requesting wrap on a text whose rotation is not
an integer multiple of 90 degrees fails with the rotation ValueError before
any measurement or fitting; without wrap, or with an axis-aligned rotation,
that error is never raised. -/
theorem wrap_rotation_guard (t : TextObj) (w h : ℚ) (wrap grow : Bool)
    (tr : Affine2) (r : Renderer) (dpi : ℚ) (hw : 0 ≤ w) (hh : 0 ≤ h) :
    ((¬ ∃ k : ℤ, t.rotation = 90 * (k : ℚ)) →
      text_with_autofit t w h true grow tr r dpi =
        .error (.valueError
          "`wrap` option only supports the horizontal or vertical text object.")) ∧
    ((wrap = false ∨ ∃ k : ℤ, t.rotation = 90 * (k : ℚ)) →
      text_with_autofit t w h wrap grow tr r dpi ≠
        .error (.valueError
          "`wrap` option only supports the horizontal or vertical text object.")) := by
  have h1 : ¬(w < 0 ∨ h < 0) := by push_neg; exact ⟨hw, hh⟩
  constructor
  · intro hrot
    have hmod : pyMod t.rotation 90 ≠ 0 := fun h0 =>
      hrot ((pyMod90_eq_zero_iff t.rotation).mp h0)
    unfold text_with_autofit
    rw [if_neg h1, if_pos ⟨rfl, hmod⟩]
  · intro hok heq
    have hcond : ¬(wrap = true ∧ pyMod t.rotation 90 ≠ 0) := by
      rcases hok with hfalse | hmult
      · rintro ⟨hT, _⟩
        rw [hfalse] at hT
        exact Bool.false_ne_true hT
      · rintro ⟨_, hne⟩
        exact hne ((pyMod90_eq_zero_iff t.rotation).mpr hmult)
    simp only [text_with_autofit, if_neg h1, if_neg hcond] at heq
    cases wrap with
    | false => simp at heq
    | true =>
      simp only [if_pos] at heq
      cases hcands : wrap_candidates r dpi t (dist2pixels tr w h).1
          (dist2pixels tr w h).2 with
      | error e =>
        simp only [hcands, Except.error.injEq] at heq
        rcases wrap_candidates_error _ _ _ _ _ _ hcands with rfl | rfl <;>
          simp at heq
      | ok cs =>
        simp only [hcands] at heq
        cases hsel : select_candidate grow cs with
        | error e =>
          simp only [hsel, Except.error.injEq] at heq
          rcases select_candidate_error _ _ _ hsel with rfl | rfl <;>
            simp at heq
        | ok best =>
          simp only [hsel] at heq
          by_cases hlt : min (t.fontsize * (dist2pixels tr w h).1 /
                (r.windowExtent t.text t.fontsize).1)
              (t.fontsize * (dist2pixels tr w h).2 /
                (r.windowExtent t.text t.fontsize).2) < best.1
          · rw [if_pos hlt] at heq
            simp at heq
          · rw [if_neg hlt] at heq
            simp at heq

/-- Closed instance of C9: a 45-degree rotation with wrap fails with the
rotation error; a 90-degree rotation with wrap does not. -/
theorem wrap_rotation_guard_witness :
    text_with_autofit ⟨"aa bb".toList, 1, 45, 1, 10⟩ 10 10 true true
        idTransform monoRenderer 72 =
      .error (.valueError
        "`wrap` option only supports the horizontal or vertical text object.") ∧
    text_with_autofit ⟨"aa bb".toList, 1, 90, 1, 10⟩ 10 10 true true
        idTransform monoRenderer 72 ≠
      .error (.valueError
        "`wrap` option only supports the horizontal or vertical text object.") := by
  constructor
  · refine (wrap_rotation_guard ⟨"aa bb".toList, 1, 45, 1, 10⟩ 10 10 true true
      idTransform monoRenderer 72 (by norm_num) (by norm_num)).1 ?_
    rintro ⟨k, hk⟩
    have hk45 : (45 : ℚ) = 90 * (k : ℚ) := hk
    have h3 : (2 : ℚ) * (k : ℤ) = 1 := by linarith
    have h4 : (2 : ℤ) * k = 1 := by exact_mod_cast h3
    omega
  · exact (wrap_rotation_guard ⟨"aa bb".toList, 1, 90, 1, 10⟩ 10 10 true true
      idTransform monoRenderer 72 (by norm_num) (by norm_num)).2
      (Or.inr ⟨1, by norm_num⟩)

/-- C10: with a valid box and an axis-aligned rotation, wrap mode raises
the uncaught empty-sequence ValueError of `max()` (growing) or `min()`
(otherwise) whenever the text splits into fewer than two words, because the
candidate loop over line counts `2..wordCount` is then empty; with two or
more words no exception escapes — wrap mode is total exactly on texts of at
least two words. -/
theorem wrap_crashes_on_single_word (t : TextObj) (w h : ℚ) (grow : Bool)
    (tr : Affine2) (r : Renderer) (dpi : ℚ) (hw : 0 ≤ w) (hh : 0 ≤ h)
    (hrot : ∃ k : ℤ, t.rotation = 90 * (k : ℚ)) :
    ((split_words t.text).length < 2 →
      text_with_autofit t w h true grow tr r dpi =
        .error (.valueError (if grow then "max() arg is an empty sequence"
          else "min() arg is an empty sequence"))) ∧
    (2 ≤ (split_words t.text).length →
      ∃ res, text_with_autofit t w h true grow tr r dpi = .ok res) := by
  have h1 : ¬(w < 0 ∨ h < 0) := by push_neg; exact ⟨hw, hh⟩
  have hmod : pyMod t.rotation 90 = 0 := (pyMod90_eq_zero_iff t.rotation).mpr hrot
  have hcond : ¬(true = true ∧ pyMod t.rotation 90 ≠ 0) := by simp [hmod]
  constructor
  · intro hlen
    have hcands : wrap_candidates r dpi t (dist2pixels tr w h).1
        (dist2pixels tr w h).2 = .ok [] := by
      unfold wrap_candidates
      rw [show (split_words t.text).length - 1 = 0 by omega]
      rfl
    simp only [text_with_autofit, if_neg h1, hmod]
    cases grow with
    | true => simp [hcands, select_candidate, pyMaxByKey]
    | false => simp [hcands, select_candidate, pyMinByKey]
  · intro hlen
    have hwords : split_words t.text ≠ [] := by
      intro h0
      rw [h0] at hlen
      simp at hlen
    obtain ⟨cs, hcs⟩ := mapMList_isOk_of_all
      (fun n2 => get_wrapped_fontsize r t.text (dist2pixels tr w h).2
        (dist2pixels tr w h).1 n2 t.linespacing dpi t.refSize)
      (List.range' 2 ((split_words t.text).length - 1))
      (fun n2 _ => get_wrapped_fontsize_isOk r t.text (dist2pixels tr w h).2
        (dist2pixels tr w h).1 n2 t.linespacing dpi t.refSize hwords)
    have hcands : wrap_candidates r dpi t (dist2pixels tr w h).1
        (dist2pixels tr w h).2 = .ok cs := hcs
    have hlencs : cs.length = (split_words t.text).length - 1 :=
      (mapMList_ok_length _ _ _ hcands).trans (by simp)
    cases cs with
    | nil =>
      rw [List.length_nil] at hlencs
      omega
    | cons c0 cs2 =>
      obtain ⟨best, hbest⟩ := select_candidate_cons_isOk grow c0 cs2
      have hc4 : (true = true) ↔ True := by simp
      have hc5 : ((0 : ℚ) ≠ 0) ↔ False := by simp
      simp only [text_with_autofit, if_neg h1, hmod, hc4, hc5, true_and,
        if_false, if_true, hcands, hbest]
      by_cases hlt : min (t.fontsize * (dist2pixels tr w h).1 /
            (r.windowExtent t.text t.fontsize).1)
          (t.fontsize * (dist2pixels tr w h).2 /
            (r.windowExtent t.text t.fontsize).2) < best.1
      · rw [if_pos hlt]
        exact ⟨_, rfl⟩
      · rw [if_neg hlt]
        exact ⟨_, rfl⟩

/-- Closed instance of C10: the single-word text "Hello" crashes wrap mode
with the `max()` empty-sequence error. -/
theorem wrap_crashes_on_single_word_witness :
    text_with_autofit ⟨"Hello".toList, 1, 0, 1, 10⟩ 10 10 true true
        idTransform monoRenderer 72 =
      .error (.valueError "max() arg is an empty sequence") := by
  have h := (wrap_crashes_on_single_word ⟨"Hello".toList, 1, 0, 1, 10⟩ 10 10
    true idTransform monoRenderer 72 (by norm_num) (by norm_num)
    ⟨0, by norm_num⟩).1 (by with_unfolding_all decide)
  simpa using h

/-- C4: whenever wrap-mode autofit and no-wrap autofit both succeed on the
same input, the wrapped result's font size is never smaller than the
no-wrap size; the selected wrapped candidate replaces the result — its size
becomes the font size and the newline-joined wrapped lines become the
content — exactly when its size strictly exceeds the no-wrap size, and
otherwise the unwrapped result with the original content is returned
unchanged. -/
theorem wrap_never_regresses (t : TextObj) (w h : ℚ) (grow : Bool)
    (tr : Affine2) (r : Renderer) (dpi : ℚ) (resW resN : TextObj)
    (hW : text_with_autofit t w h true grow tr r dpi = .ok resW)
    (hN : text_with_autofit t w h false grow tr r dpi = .ok resN) :
    resN.fontsize ≤ resW.fontsize ∧
    ∃ cs best,
      wrap_candidates r dpi t (dist2pixels tr w h).1 (dist2pixels tr w h).2 =
        .ok cs ∧
      select_candidate grow cs = .ok best ∧
      (resN.fontsize < best.1 →
        resW = { t with fontsize := best.1, text := joinLines best.2.1 }) ∧
      (best.1 ≤ resN.fontsize → resW = resN) := by
  by_cases h1 : (w < 0 ∨ h < 0)
  · unfold text_with_autofit at hN
    rw [if_pos h1] at hN
    exact absurd hN (by simp)
  by_cases h2 : ((true = true) ∧ pyMod t.rotation 90 ≠ 0)
  · unfold text_with_autofit at hW
    rw [if_neg h1, if_pos h2] at hW
    exact absurd hW (by simp)
  have hmod : pyMod t.rotation 90 = 0 := by
    by_contra hne
    exact h2 ⟨rfl, hne⟩
  have hc3 : (false = true) ↔ False := by simp
  have hc4 : (true = true) ↔ True := by simp
  have hc5 : ((0 : ℚ) ≠ 0) ↔ False := by simp
  simp only [text_with_autofit, if_neg h1, hmod, hc3, hc4, hc5, true_and,
    false_and, and_false, if_false, if_true] at hW hN
  have hresN : resN = { t with fontsize := (min
      (t.fontsize * (dist2pixels tr w h).1 /
        (r.windowExtent t.text t.fontsize).1)
      (t.fontsize * (dist2pixels tr w h).2 /
        (r.windowExtent t.text t.fontsize).2)) } := by
    simp only [Except.ok.injEq] at hN
    exact hN.symm
  cases hcands : wrap_candidates r dpi t (dist2pixels tr w h).1
      (dist2pixels tr w h).2 with
  | error e =>
    simp only [hcands] at hW
    exact absurd hW (by simp)
  | ok cs =>
    simp only [hcands] at hW
    cases hsel : select_candidate grow cs with
    | error e =>
      simp only [hsel] at hW
      exact absurd hW (by simp)
    | ok best =>
      simp only [hsel] at hW
      by_cases hlt : min (t.fontsize * (dist2pixels tr w h).1 /
            (r.windowExtent t.text t.fontsize).1)
          (t.fontsize * (dist2pixels tr w h).2 /
            (r.windowExtent t.text t.fontsize).2) < best.1
      · rw [if_pos hlt] at hW
        simp only [Except.ok.injEq] at hW
        refine ⟨?_, cs, best, rfl, hsel, ?_, ?_⟩
        · rw [hresN, ← hW]
          exact le_of_lt hlt
        · intro _
          exact hW.symm
        · intro hle
          rw [hresN] at hle
          exact absurd hlt (not_lt.mpr hle)
      · rw [if_neg hlt] at hW
        simp only [Except.ok.injEq] at hW
        refine ⟨?_, cs, best, rfl, hsel, ?_, ?_⟩
        · rw [hresN, ← hW]
        · intro hgt
          rw [hresN] at hgt
          exact absurd hgt hlt
        · intro _
          rw [hresN, ← hW]

/-- Closed instance of C4: for "aa bb" in a 10 by 10 box the wrapped size 5
beats the no-wrap size 2, so the wrapped content and size are returned. -/
theorem wrap_never_regresses_witness :
    (⟨"aa bb".toList, 2, 0, 1, 10⟩ : TextObj).fontsize ≤
      (⟨"aa\nbb".toList, 5, 0, 1, 10⟩ : TextObj).fontsize ∧
    ∃ cs best,
      wrap_candidates monoRenderer 72 ⟨"aa bb".toList, 1, 0, 1, 10⟩
          (dist2pixels idTransform 10 10).1 (dist2pixels idTransform 10 10).2 =
        .ok cs ∧
      select_candidate true cs = .ok best ∧
      ((⟨"aa bb".toList, 2, 0, 1, 10⟩ : TextObj).fontsize < best.1 →
        (⟨"aa\nbb".toList, 5, 0, 1, 10⟩ : TextObj) =
          { (⟨"aa bb".toList, 1, 0, 1, 10⟩ : TextObj) with
            fontsize := best.1, text := joinLines best.2.1 }) ∧
      (best.1 ≤ (⟨"aa bb".toList, 2, 0, 1, 10⟩ : TextObj).fontsize →
        (⟨"aa\nbb".toList, 5, 0, 1, 10⟩ : TextObj) =
          (⟨"aa bb".toList, 2, 0, 1, 10⟩ : TextObj)) :=
  wrap_never_regresses ⟨"aa bb".toList, 1, 0, 1, 10⟩ 10 10 true
    idTransform monoRenderer 72 ⟨"aa\nbb".toList, 5, 0, 1, 10⟩
    ⟨"aa bb".toList, 2, 0, 1, 10⟩
    (by with_unfolding_all decide) (by with_unfolding_all decide)

end PatentVis
